import Mathlib

/-!
Verification development for the colorbox color-science library.

The matrix engine (`src/matrix.rs`), the gamut mapper (`src/transforms.rs`)
and the 1D LUT resampler (`src/lut.rs`) are shallowly embedded here.
`f64`/`f32` arithmetic is modelled by exact rational arithmetic (`ℚ`) except
where a property genuinely hinges on IEEE-754 special values, in which case a
small explicit floating-point value type `FP` (rationals extended with the two
infinities and NaN) is used, and except for `soft_clamp`, whose square root
forces the real numbers.
-/

/-- Colors are raw 3-tuples (`[f64; 3]` in the source). -/
structure Vec3 (α : Type) where
  c0 : α
  c1 : α
  c2 : α
deriving DecidableEq, Repr

/-- Row-major 3x3 matrix (`pub type Matrix = [[f64; 3]; 3]`), entry `mRC` is
row `R`, column `C`. -/
structure Mat3 where
  m00 : ℚ
  m01 : ℚ
  m02 : ℚ
  m10 : ℚ
  m11 : ℚ
  m12 : ℚ
  m20 : ℚ
  m21 : ℚ
  m22 : ℚ
deriving DecidableEq, Repr

/-- The identity matrix (the `IDENTITY` constant of `matrix.rs`). -/
def idMat : Mat3 := ⟨1, 0, 0, 0, 1, 0, 0, 0, 1⟩

/-- Embedding of `matrix.rs::transform_color`: `c[i] = Σ_j color[j] * m[i][j]`. -/
def transform_color (color : Vec3 ℚ) (m : Mat3) : Vec3 ℚ :=
  ⟨color.c0 * m.m00 + color.c1 * m.m01 + color.c2 * m.m02,
   color.c0 * m.m10 + color.c1 * m.m11 + color.c2 * m.m12,
   color.c0 * m.m20 + color.c1 * m.m21 + color.c2 * m.m22⟩

/-- Embedding of `matrix.rs::multiply`: `c[i][j] = Σ_k b[i][k] * a[k][j]`
(the result applies `a` first and then `b`). -/
def multiply (a b : Mat3) : Mat3 :=
  ⟨b.m00 * a.m00 + b.m01 * a.m10 + b.m02 * a.m20,
   b.m00 * a.m01 + b.m01 * a.m11 + b.m02 * a.m21,
   b.m00 * a.m02 + b.m01 * a.m12 + b.m02 * a.m22,
   b.m10 * a.m00 + b.m11 * a.m10 + b.m12 * a.m20,
   b.m10 * a.m01 + b.m11 * a.m11 + b.m12 * a.m21,
   b.m10 * a.m02 + b.m11 * a.m12 + b.m12 * a.m22,
   b.m20 * a.m00 + b.m21 * a.m10 + b.m22 * a.m20,
   b.m20 * a.m01 + b.m21 * a.m11 + b.m22 * a.m21,
   b.m20 * a.m02 + b.m21 * a.m12 + b.m22 * a.m22⟩

/-- Embedding of `matrix.rs::compose`.  The Rust function `assert!`s (panics)
on an empty slice; the panic is modelled as `none`. -/
def compose (matrices : List Mat3) : Option Mat3 :=
  match matrices with
  | [] => none
  | m :: rest => some (rest.foldl multiply m)

/-- The 3x3 determinant, spelled as the cofactor expansion that
`matrix.rs::inverse` computes inline. -/
def det3 (m : Mat3) : ℚ :=
  m.m00 * (m.m11 * m.m22 - m.m21 * m.m12)
    - m.m01 * (m.m10 * m.m22 - m.m12 * m.m20)
    + m.m02 * (m.m10 * m.m21 - m.m11 * m.m20)

/-- Embedding of `matrix.rs::inverse`: adjugate divided by the determinant,
with an exact-zero determinant test deciding failure. -/
def inverse (m : Mat3) : Option Mat3 :=
  let a := m.m11 * m.m22 - m.m21 * m.m12
  let b := m.m10 * m.m22
  let c := m.m12 * m.m20
  let d := m.m10 * m.m21
  let det := m.m00 * a - m.m01 * (b - c) + m.m02 * (d - m.m11 * m.m20)
  if det = 0 then
    none
  else
    let invdet := 1 / det
    some ⟨a * invdet,
          (m.m02 * m.m21 - m.m01 * m.m22) * invdet,
          (m.m01 * m.m12 - m.m02 * m.m11) * invdet,
          (c - b) * invdet,
          (m.m00 * m.m22 - m.m02 * m.m20) * invdet,
          (m.m10 * m.m02 - m.m00 * m.m12) * invdet,
          (d - m.m20 * m.m11) * invdet,
          (m.m20 * m.m01 - m.m00 * m.m21) * invdet,
          (m.m00 * m.m11 - m.m10 * m.m01) * invdet⟩

-- Basic algebraic lemmas about the matrix engine, shared by several claims.

theorem transform_color_multiply (x : Vec3 ℚ) (a b : Mat3) :
    transform_color (transform_color x a) b = transform_color x (multiply a b) := by
  simp only [transform_color, multiply, Vec3.mk.injEq]
  refine ⟨by ring, by ring, by ring⟩

theorem transform_color_idMat (x : Vec3 ℚ) : transform_color x idMat = x := by
  simp only [transform_color, idMat]
  cases x
  simp

theorem multiply_idMat_right (a : Mat3) : multiply a idMat = a := by
  simp only [multiply, idMat]
  cases a
  simp

theorem det3_multiply (a b : Mat3) : det3 (multiply a b) = det3 a * det3 b := by
  simp only [det3, multiply]
  ring

theorem det3_idMat : det3 idMat = 1 := by
  simp [det3, idMat]

theorem inverse_eq_none_iff (m : Mat3) : inverse m = none ↔ det3 m = 0 := by
  simp only [inverse, det3]
  split_ifs with h
  · simp [h]
  · simp [h]

theorem inverse_mul_eq_idMat (m mi : Mat3) (h : inverse m = some mi) :
    multiply m mi = idMat ∧ multiply mi m = idMat := by
  have hd : ¬ (m.m00 * (m.m11 * m.m22 - m.m21 * m.m12) -
      m.m01 * (m.m10 * m.m22 - m.m12 * m.m20) +
      m.m02 * (m.m10 * m.m21 - m.m11 * m.m20) = 0) := by
    intro h0
    have hn : inverse m = none := by
      simp only [inverse]
      simp [h0]
    simp [hn] at h
  simp only [inverse] at h
  rw [if_neg hd] at h
  injection h with h
  subst h
  constructor <;>
    (simp only [multiply, idMat, Mat3.mk.injEq]
     refine ⟨?_, ?_, ?_, ?_, ?_, ?_, ?_, ?_, ?_⟩) <;>
    field_simp <;> ring

theorem inverse_ne_none_of_det3 (m : Mat3) (h : det3 m ≠ 0) :
    ∃ mi, inverse m = some mi := by
  cases hm : inverse m with
  | none => exact absurd ((inverse_eq_none_iff m).mp hm) h
  | some mi => exact ⟨mi, rfl⟩

/-- Claim C4: `inverse` signals failure by an absent value, failing exactly
when its exact-zero determinant test (equivalently, in exact arithmetic, the
zero-pivot singularity test) fires, i.e. exactly on non-invertible matrices,
and succeeding with a genuine two-sided inverse on every other matrix with no
epsilon tolerance. -/
theorem claim_C4_inverse_failure (m : Mat3) :
    (inverse m = none ↔ det3 m = 0)
      ∧ ((∃ mi, inverse m = some mi) ↔ ∃ n, multiply m n = idMat)
      ∧ (∀ mi, inverse m = some mi → multiply m mi = idMat ∧ multiply mi m = idMat) := by
  refine ⟨inverse_eq_none_iff m, ⟨?_, ?_⟩, fun mi h => inverse_mul_eq_idMat m mi h⟩
  · rintro ⟨mi, h⟩
    exact ⟨mi, (inverse_mul_eq_idMat m mi h).1⟩
  · rintro ⟨n, hn⟩
    cases hm : inverse m with
    | some mi => exact ⟨mi, rfl⟩
    | none =>
      exfalso
      have h0 : det3 m = 0 := (inverse_eq_none_iff m).mp hm
      have hdet : det3 (multiply m n) = det3 idMat := by rw [hn]
      rw [det3_multiply, det3_idMat, h0] at hdet
      simp at hdet

/-- Witness for claim C4 at the concrete matrix `diag(1,2,4)`. -/
theorem claim_C4_inverse_failure_witness :
    multiply ⟨1, 0, 0, 0, 2, 0, 0, 0, 4⟩ ⟨1, 0, 0, 0, 1/2, 0, 0, 0, 1/4⟩ = idMat
      ∧ multiply ⟨1, 0, 0, 0, 1/2, 0, 0, 0, 1/4⟩ ⟨1, 0, 0, 0, 2, 0, 0, 0, 4⟩ = idMat :=
  (claim_C4_inverse_failure ⟨1, 0, 0, 0, 2, 0, 0, 0, 4⟩).2.2
    ⟨1, 0, 0, 0, 1/2, 0, 0, 0, 1/4⟩ (by norm_num [inverse])

/-- Claim C5: `multiply` composes transforms so that `a` is applied first and
then `b`: `transform_color (transform_color x a) b = transform_color x
(multiply a b)` for every color `x` and all matrices `a`, `b`. -/
theorem claim_C5_multiply_composes (x : Vec3 ℚ) (a b : Mat3) :
    transform_color (transform_color x a) b = transform_color x (multiply a b) :=
  transform_color_multiply x a b

/-- Claim C6: `compose` fails (the Rust assertion panic, modelled as `none`)
if and only if the list is empty; on a non-empty list it is the left-to-right
sequential fold of `multiply`, so `compose [a,b,c] = multiply (multiply a b) c`
exactly. -/
theorem claim_C6_compose_fold (a b c : Mat3) :
    (∀ ms : List Mat3, compose ms = none ↔ ms = [])
      ∧ (∀ (m : Mat3) (rest : List Mat3),
          compose (m :: rest) = some (rest.foldl multiply m))
      ∧ compose [a, b, c] = some (multiply (multiply a b) c) := by
  refine ⟨?_, fun m rest => rfl, rfl⟩
  intro ms
  cases ms <;> simp [compose]

/-- Chromatic adaptation methods (`matrix.rs::AdaptationMethod`). -/
inductive AdaptationMethod where
  | XYZScale
  | Hunt
  | Bradford
deriving DecidableEq, Repr

/-- The Hunt-Pointer-Estevez transformation matrix (`TO_LMS_HUNT`). -/
def TO_LMS_HUNT : Mat3 :=
  ⟨0.38971, 0.68898, -0.07868,
   -0.22981, 1.18340, 0.04641,
   0, 0, 1⟩

/-- The Bradford transformation matrix (`TO_RGB_BRADFORD`). -/
def TO_RGB_BRADFORD : Mat3 :=
  ⟨0.8951, 0.2664, -0.1614,
   -0.7502, 1.7135, 0.0367,
   0.0389, -0.0685, 1.0296⟩

/-- The response-space basis selected by the adaptation method (the `to_abc`
match inside `xyz_chromatic_adaptation_matrix`; `idMat` is the source's
`IDENTITY` constant). -/
def to_abc : AdaptationMethod → Mat3
  | .XYZScale => idMat
  | .Hunt => TO_LMS_HUNT
  | .Bradford => TO_RGB_BRADFORD

/-- XYZ tristimulus of a white point given in CIE xy coordinates (the inline
`src_w_xyz`/`dst_w_xyz` computation: `[x/y, 1, (1-x-y)/y]`). -/
def whitePointXyz (w : ℚ × ℚ) : Vec3 ℚ :=
  ⟨w.1 / w.2, 1, (1 - w.1 - w.2) / w.2⟩

/-- Embedding of `matrix.rs::xyz_chromatic_adaptation_matrix`.  The source's
`inverse(to_abc).unwrap()` cannot panic since all three basis matrices are
invertible (`det3_to_abc` below); the `unwrap` is modelled by a junk default. -/
def xyz_chromatic_adaptation_matrix (src_w dst_w : ℚ × ℚ)
    (method : AdaptationMethod) : Mat3 :=
  let toAbc := to_abc method
  let from_abc := (inverse toAbc).getD idMat
  let src_w_xyz := whitePointXyz src_w
  let dst_w_xyz := whitePointXyz dst_w
  let src_w_abc := transform_color src_w_xyz toAbc
  let dst_w_abc := transform_color dst_w_xyz toAbc
  let w_scale : Mat3 :=
    ⟨dst_w_abc.c0 / src_w_abc.c0, 0, 0,
     0, dst_w_abc.c1 / src_w_abc.c1, 0,
     0, 0, dst_w_abc.c2 / src_w_abc.c2⟩
  (compose [toAbc, w_scale, from_abc]).getD idMat

/-- Entrywise closeness of a matrix to the identity within `ε`. -/
def matNearIdentity (m : Mat3) (ε : ℚ) : Prop :=
  |m.m00 - 1| ≤ ε ∧ |m.m01| ≤ ε ∧ |m.m02| ≤ ε ∧
  |m.m10| ≤ ε ∧ |m.m11 - 1| ≤ ε ∧ |m.m12| ≤ ε ∧
  |m.m20| ≤ ε ∧ |m.m21| ≤ ε ∧ |m.m22 - 1| ≤ ε

theorem det3_to_abc (method : AdaptationMethod) : det3 (to_abc method) ≠ 0 := by
  cases method <;> norm_num [det3, to_abc, idMat, TO_LMS_HUNT, TO_RGB_BRADFORD]

theorem transform_scale_diag (s d : Vec3 ℚ)
    (h0 : s.c0 ≠ 0) (h1 : s.c1 ≠ 0) (h2 : s.c2 ≠ 0) :
    transform_color s ⟨d.c0 / s.c0, 0, 0, 0, d.c1 / s.c1, 0, 0, 0, d.c2 / s.c2⟩ = d := by
  cases s with
  | mk s0 s1 s2 =>
    cases d with
    | mk d0 d1 d2 =>
      simp only [transform_color, Vec3.mk.injEq] at *
      refine ⟨?_, ?_, ?_⟩ <;> field_simp

theorem xcam_eq (src_w dst_w : ℚ × ℚ) (method : AdaptationMethod) (fm : Mat3)
    (hfm : inverse (to_abc method) = some fm) :
    xyz_chromatic_adaptation_matrix src_w dst_w method =
      multiply
        (multiply (to_abc method)
          ⟨(transform_color (whitePointXyz dst_w) (to_abc method)).c0 /
              (transform_color (whitePointXyz src_w) (to_abc method)).c0, 0, 0,
           0, (transform_color (whitePointXyz dst_w) (to_abc method)).c1 /
              (transform_color (whitePointXyz src_w) (to_abc method)).c1, 0,
           0, 0, (transform_color (whitePointXyz dst_w) (to_abc method)).c2 /
              (transform_color (whitePointXyz src_w) (to_abc method)).c2⟩)
        fm := by
  simp only [xyz_chromatic_adaptation_matrix, hfm, Option.getD_some, compose, List.foldl]

/-- Claim C1 (amended): for every adaptation method and white points with
nonzero `y`, and whose source white has nonzero response-space (ABC)
coordinates, the chromatic adaptation matrix maps the source white's XYZ
tristimulus exactly to the destination white's XYZ tristimulus; and when
`src_w = dst_w` the matrix is the identity, hence within `1e-9` per entry of
it. -/
theorem claim_C1_adaptation_white_point (method : AdaptationMethod)
    (src_w dst_w : ℚ × ℚ) (_hsy : src_w.2 ≠ 0) (_hdy : dst_w.2 ≠ 0)
    (h0 : (transform_color (whitePointXyz src_w) (to_abc method)).c0 ≠ 0)
    (h1 : (transform_color (whitePointXyz src_w) (to_abc method)).c1 ≠ 0)
    (h2 : (transform_color (whitePointXyz src_w) (to_abc method)).c2 ≠ 0) :
    transform_color (whitePointXyz src_w)
        (xyz_chromatic_adaptation_matrix src_w dst_w method) = whitePointXyz dst_w
      ∧ (src_w = dst_w →
          matNearIdentity (xyz_chromatic_adaptation_matrix src_w dst_w method)
            (1 / 1000000000)) := by
  obtain ⟨fm, hfm⟩ := inverse_ne_none_of_det3 _ (det3_to_abc method)
  have hMM : multiply (to_abc method) fm = idMat := (inverse_mul_eq_idMat _ _ hfm).1
  have hx := xcam_eq src_w dst_w method fm hfm
  constructor
  · rw [hx, ← transform_color_multiply, ← transform_color_multiply]
    rw [transform_scale_diag _ _ h0 h1 h2]
    rw [transform_color_multiply, hMM, transform_color_idMat]
  · intro hsd
    subst hsd
    rw [hx]
    have hw : (⟨(transform_color (whitePointXyz src_w) (to_abc method)).c0 /
          (transform_color (whitePointXyz src_w) (to_abc method)).c0, 0, 0,
        0, (transform_color (whitePointXyz src_w) (to_abc method)).c1 /
          (transform_color (whitePointXyz src_w) (to_abc method)).c1, 0,
        0, 0, (transform_color (whitePointXyz src_w) (to_abc method)).c2 /
          (transform_color (whitePointXyz src_w) (to_abc method)).c2⟩ : Mat3) = idMat := by
      simp only [idMat, Mat3.mk.injEq]
      exact ⟨div_self h0, trivial, trivial, trivial, div_self h1, trivial, trivial,
        trivial, div_self h2⟩
    rw [hw, multiply_idMat_right, hMM]
    norm_num [matNearIdentity, idMat]

/-- Witness for claim C1 at `src_w = dst_w = (1/3, 1/3)` under the Bradford
method. -/
theorem claim_C1_adaptation_white_point_witness :
    transform_color (whitePointXyz (1/3, 1/3))
        (xyz_chromatic_adaptation_matrix (1/3, 1/3) (1/3, 1/3) AdaptationMethod.Bradford)
        = whitePointXyz (1/3, 1/3)
      ∧ matNearIdentity
          (xyz_chromatic_adaptation_matrix (1/3, 1/3) (1/3, 1/3) AdaptationMethod.Bradford)
          (1 / 1000000000) := by
  have h := claim_C1_adaptation_white_point AdaptationMethod.Bradford (1/3, 1/3) (1/3, 1/3)
    (by norm_num) (by norm_num)
    (by norm_num [transform_color, whitePointXyz, to_abc, TO_RGB_BRADFORD])
    (by norm_num [transform_color, whitePointXyz, to_abc, TO_RGB_BRADFORD])
    (by norm_num [transform_color, whitePointXyz, to_abc, TO_RGB_BRADFORD])
  exact ⟨h.1, h.2 rfl⟩

/-- Counterexample to claim C1 as stated: the white point `(0, 1/2)` has
nonzero `y` but a zero `X` tristimulus component, so the Von Kries scale
divides by zero (`NaN`/`inf` in `f64`; junk `0` in this exact model) and the
adapted source white does not land on the destination white. -/
theorem claim_C1_counterexample :
    transform_color (whitePointXyz (0, 1/2))
        (xyz_chromatic_adaptation_matrix (0, 1/2) (1/3, 1/3) AdaptationMethod.XYZScale)
      ≠ whitePointXyz (1/3, 1/3) := by
  norm_num [xyz_chromatic_adaptation_matrix, whitePointXyz, to_abc, inverse, idMat,
    compose, transform_color, multiply]


/-- Loop body of `lut.rs::resample`: the value pushed for output index `i`
(`f32` modelled by `ℚ`).  The panicking accesses `old_table[0]` /
`last().unwrap()` on an empty table are modelled with junk defaults; the
`as usize` cast of the nonnegative `j` is `Int.floor`+`toNat`. -/
def resampleSampleValue (new_samples : Nat) (new_range_x : ℚ × ℚ)
    (old_table : List ℚ) (old_range_x : ℚ × ℚ) (i : Nat) : ℚ :=
  let offset := (new_range_x.1 - old_range_x.1) / (old_range_x.2 - old_range_x.1)
  let norm := (new_range_x.2 - new_range_x.1) / (old_range_x.2 - old_range_x.1)
  let x : ℚ := (i : ℚ) / ((new_samples - 1 : ℕ) : ℚ)
  let x := offset + x * norm
  if x ≤ 0 then old_table.getD 0 0
  else if 1 ≤ x then old_table.getD (old_table.length - 1) 0
  else
    let j : ℚ := x * ((old_table.length - 1 : ℕ) : ℚ)
    let j1 : Nat := (⌊j⌋).toNat
    let j2 : Nat := j1 + 1
    if old_table.length ≤ j2 then old_table.getD (old_table.length - 1) 0
    else
      let alpha := j - (j1 : ℚ)
      old_table.getD j1 0 * (1 - alpha) + old_table.getD j2 0 * alpha

/-- Embedding of `lut.rs::resample`: one pushed value per output index. -/
def resample (new_samples : Nat) (new_range_x : ℚ × ℚ) (old_table : List ℚ)
    (old_range_x : ℚ × ℚ) : List ℚ :=
  (List.range new_samples).map
    (resampleSampleValue new_samples new_range_x old_table old_range_x)

/-- Claim C7: resampling a table of exactly `N ≥ 2` samples to the same sample
count `N` and the same range `R` (with nondegenerate `R`) reproduces the table
element for element. -/
theorem claim_C7_resample_identity (N : Nat) (R : ℚ × ℚ) (t : List ℚ)
    (hlen : t.length = N) (hN : 2 ≤ N) (hR : R.1 ≠ R.2) :
    resample N R t R = t := by
  subst hlen
  have hd : R.2 - R.1 ≠ 0 := sub_ne_zero.mpr (Ne.symm hR)
  have h1len : 1 ≤ t.length := le_trans (by norm_num) hN
  have h2 : (2 : ℚ) ≤ (t.length : ℚ) := by exact_mod_cast hN
  have hcast : ((t.length - 1 : ℕ) : ℚ) = (t.length : ℚ) - 1 := by
    push_cast [Nat.cast_sub h1len]
    ring
  have hne : ((t.length - 1 : ℕ) : ℚ) ≠ 0 := by
    rw [hcast]
    intro h
    nlinarith
  have hpos : (0 : ℚ) < ((t.length - 1 : ℕ) : ℚ) := by
    rw [hcast]
    nlinarith
  have hoff : (R.1 - R.1) / (R.2 - R.1) = 0 := by rw [sub_self, zero_div]
  have hnorm1 : (R.2 - R.1) / (R.2 - R.1) = 1 := div_self hd
  apply List.ext_getElem
  · simp [resample]
  · intro i hi hit
    have hlt : i < t.length := by
      simpa [resample] using hi
    simp only [resample]
    rw [List.getElem_map, List.getElem_range]
    simp only [resampleSampleValue, hoff, hnorm1, zero_add, mul_one]
    rcases Nat.eq_zero_or_pos i with hzero | hposi
    · -- first sample: the mapped coordinate is zero, first branch taken
      subst hzero
      rw [Nat.cast_zero, zero_div, if_pos le_rfl]
      exact List.getD_eq_getElem t 0 (show 0 < t.length by omega)
    · by_cases hlast : i = t.length - 1
      · -- last sample: the mapped coordinate is one, second branch taken
        subst hlast
        rw [div_self hne]
        rw [if_neg (by norm_num), if_pos le_rfl]
        exact List.getD_eq_getElem t 0 (show t.length - 1 < t.length by omega)
      · -- interior sample: the coordinate is strictly between zero and one
        -- and the interpolation weight vanishes
        have hilt : i < t.length - 1 := by omega
        have hxpos : (0 : ℚ) < (i : ℚ) / ((t.length - 1 : ℕ) : ℚ) :=
          div_pos (by exact_mod_cast hposi) hpos
        have hxlt : (i : ℚ) / ((t.length - 1 : ℕ) : ℚ) < 1 := by
          rw [div_lt_one hpos]
          exact_mod_cast hilt
        rw [if_neg (not_le.mpr hxpos), if_neg (not_le.mpr hxlt)]
        rw [div_mul_cancel₀ _ hne]
        have hfloor : (⌊(i : ℚ)⌋).toNat = i := by
          rw [Int.floor_natCast]
          exact Int.toNat_natCast i
        rw [hfloor]
        rw [if_neg (by omega)]
        rw [List.getD_eq_getElem t 0 (show i < t.length by omega),
          List.getD_eq_getElem t 0 (show i + 1 < t.length by omega)]
        rw [sub_self]
        ring

/-- Witness for claim C7 at the concrete table `[0, 1/4, 1]`. -/
theorem claim_C7_resample_identity_witness :
    resample 3 (0, 1) [0, 1/4, 1] (0, 1) = [0, 1/4, 1] :=
  claim_C7_resample_identity 3 (0, 1) [0, 1/4, 1] rfl (by norm_num) (by norm_num)

/-- Forward-advancing scan of `lut.rs::resample_inv`'s inner `while` loop:
advance `old_i_2` while `new_x > old_table[old_i_2]`.  The loop is fueled by
the table length; in the source an overrun would panic on an out-of-bounds
index, which the surrounding in-range branch prevents for monotonic tables. -/
def advanceI2 (t : List ℚ) (new_x : ℚ) : Nat → Nat → Nat
  | 0, i2 => i2
  | fuel + 1, i2 => if t.getD i2 0 < new_x then advanceI2 t new_x fuel (i2 + 1) else i2

/-- Loop of `lut.rs::resample_inv`: `count` outputs remain to be pushed, `i`
is the output index, and `i1`/`i2` are the persistent bracketing indices
(`old_i_1`/`old_i_2`), which only ever advance forward. -/
def resampleInvGo (new_range_x old_range_x : ℚ × ℚ) (t : List ℚ)
    (old_norm new_norm : ℚ) : Nat → Nat → Nat → Nat → List ℚ
  | 0, _, _, _ => []
  | count + 1, i, i1, i2 =>
    let new_x := new_range_x.1 + (i : ℚ) * new_norm
    if new_x < t.getD 0 0 then
      old_range_x.1 ::
        resampleInvGo new_range_x old_range_x t old_norm new_norm count (i + 1) i1 i2
    else if t.getD (t.length - 1) 0 < new_x then
      old_range_x.2 ::
        resampleInvGo new_range_x old_range_x t old_norm new_norm count (i + 1) i1 i2
    else
      let i2n := advanceI2 t new_x t.length i2
      let i1n := i1 + (i2n - i2)
      let c1 : ℚ × ℚ := (old_range_x.1 + (i1n : ℚ) * old_norm, t.getD i1n 0)
      let c2 : ℚ × ℚ := (old_range_x.1 + (i2n : ℚ) * old_norm, t.getD i2n 0)
      let alpha := if 0 < c2.2 - c1.2 then (new_x - c1.2) / (c2.2 - c1.2) else 0
      let new_y := c1.1 + alpha * (c2.1 - c1.1)
      new_y ::
        resampleInvGo new_range_x old_range_x t old_norm new_norm count (i + 1) i1n i2n

/-- Embedding of `lut.rs::resample_inv` (`f32` modelled by `ℚ`). -/
def resample_inv (new_samples : Nat) (new_range_x : ℚ × ℚ) (old_table : List ℚ)
    (old_range_x : ℚ × ℚ) : List ℚ :=
  let old_norm := (old_range_x.2 - old_range_x.1) / ((old_table.length - 1 : ℕ) : ℚ)
  let new_norm := (new_range_x.2 - new_range_x.1) / ((new_samples - 1 : ℕ) : ℚ)
  resampleInvGo new_range_x old_range_x old_table old_norm new_norm new_samples 0 0 1

theorem resampleInvGo_clamp (nr or : ℚ × ℚ) (t : List ℚ) (onorm nnorm : ℚ)
    (hm : t.getD 0 0 ≤ t.getD (t.length - 1) 0) :
    ∀ (count i0 i1 i2 j : Nat), j < count →
      ((nr.1 + ((i0 + j : ℕ) : ℚ) * nnorm < t.getD 0 0 →
          (resampleInvGo nr or t onorm nnorm count i0 i1 i2).getD j 0 = or.1)
       ∧ (t.getD (t.length - 1) 0 < nr.1 + ((i0 + j : ℕ) : ℚ) * nnorm →
          (resampleInvGo nr or t onorm nnorm count i0 i1 i2).getD j 0 = or.2)) := by
  intro count
  induction count with
  | zero => intro i0 i1 i2 j hj; omega
  | succ c ih =>
    intro i0 i1 i2 j hj
    rcases Nat.eq_zero_or_pos j with hj0 | hjpos
    · subst hj0
      simp only [Nat.add_zero]
      constructor
      · intro hlow
        simp only [resampleInvGo]
        rw [if_pos hlow]
        rfl
      · intro hhigh
        have hnotlow : ¬ (nr.1 + (i0 : ℚ) * nnorm < t.getD 0 0) :=
          not_lt.mpr (le_trans hm (le_of_lt hhigh))
        simp only [resampleInvGo]
        rw [if_neg hnotlow, if_pos hhigh]
        rfl
    · obtain ⟨k, hk⟩ := Nat.exists_eq_succ_of_ne_zero (Nat.pos_iff_ne_zero.mp hjpos)
      subst hk
      have hcast : ((i0 + (k + 1) : ℕ) : ℚ) = (((i0 + 1) + k : ℕ) : ℚ) := by
        congr 1
        omega
      have ihx := fun s1 s2 => ih (i0 + 1) s1 s2 k (by omega)
      constructor
      · intro hlow
        rw [hcast] at hlow
        simp only [resampleInvGo]
        split_ifs <;>
          (rw [List.getD_cons_succ]
           exact (ih (i0 + 1) _ _ k (by omega)).1 hlow)
      · intro hhigh
        rw [hcast] at hhigh
        simp only [resampleInvGo]
        split_ifs <;>
          (rw [List.getD_cons_succ]
           exact (ih (i0 + 1) _ _ k (by omega)).2 hhigh)

theorem getD_head_le_getD_last (t : List ℚ)
    (hmono : List.Pairwise (· ≤ ·) t) (hne : t ≠ []) :
    t.getD 0 0 ≤ t.getD (t.length - 1) 0 := by
  have hlen : 0 < t.length := List.length_pos.mpr hne
  rcases Nat.eq_or_lt_of_le hlen with h1 | h2
  · rw [List.getD_eq_getElem t 0 hlen, List.getD_eq_getElem t 0 (by omega)]
    have : t.length - 1 = 0 := by omega
    simp [this]
  · rw [List.getD_eq_getElem t 0 hlen, List.getD_eq_getElem t 0 (by omega)]
    exact (List.pairwise_iff_getElem.mp hmono) 0 (t.length - 1) hlen (by omega) (by omega)

/-- Claim C8: in `resample_inv` over a monotonically non-decreasing table,
every output position whose evenly spaced y-value lies strictly below the
first table sample receives exactly the old domain's lower endpoint, and every
position whose y-value lies strictly above the last table sample receives
exactly the upper endpoint — out-of-range inputs clamp to the domain
endpoints with no extrapolation. -/
theorem claim_C8_resample_inv_clamp (new_samples : Nat) (nr bounds : ℚ × ℚ)
    (t : List ℚ) (hmono : List.Pairwise (· ≤ ·) t) (hne : t ≠ [])
    (j : Nat) (hj : j < new_samples) :
    ((nr.1 + (j : ℚ) * ((nr.2 - nr.1) / ((new_samples - 1 : ℕ) : ℚ)) < t.getD 0 0 →
        (resample_inv new_samples nr t bounds).getD j 0 = bounds.1)
      ∧ (t.getD (t.length - 1) 0 <
            nr.1 + (j : ℚ) * ((nr.2 - nr.1) / ((new_samples - 1 : ℕ) : ℚ)) →
          (resample_inv new_samples nr t bounds).getD j 0 = bounds.2)) := by
  have hm := getD_head_le_getD_last t hmono hne
  have h := resampleInvGo_clamp nr bounds t
    ((bounds.2 - bounds.1) / ((t.length - 1 : ℕ) : ℚ))
    ((nr.2 - nr.1) / ((new_samples - 1 : ℕ) : ℚ)) hm new_samples 0 0 1 j hj
  simp only [resample_inv]
  simpa using h

/-- Witness for claim C8: with table `[1/2, 1]` over old range `(0, 1)` and
new range `(-1, 2)` with 4 samples, the first output clamps to `0` and the
last output clamps to `1`. -/
theorem claim_C8_resample_inv_clamp_witness :
    (resample_inv 4 (-1, 2) [1/2, 1] (0, 1)).getD 0 0 = 0
      ∧ (resample_inv 4 (-1, 2) [1/2, 1] (0, 1)).getD 3 0 = 1 :=
  ⟨(claim_C8_resample_inv_clamp 4 (-1, 2) (0, 1) [1/2, 1]
      (by norm_num) (by simp) 0 (by norm_num)).1
      (by norm_num [List.getD_cons_zero]),
   (claim_C8_resample_inv_clamp 4 (-1, 2) (0, 1) [1/2, 1]
      (by norm_num) (by simp) 3 (by norm_num)).2
      (by norm_num [List.getD_cons_succ, List.getD_cons_zero])⟩

/-- Number of `usize` values; the wrapping `i - 1` of the source is
`(i + (usizeSize - 1)) % usizeSize`. -/
def usizeSize : Nat := 2 ^ 64

/-- Result type of Rust's `slice::binary_search_by`. -/
inductive SearchResult where
  | found (i : Nat)
  | notFound (i : Nat)
deriving DecidableEq, Repr

/-- Fueled loop modelling `slice::binary_search_by` with the comparator
`v.partial_cmp(&n)`: maintain `left`/`right`, probe the midpoint, and stop
with `found` on an exact match.  The fuel `t.length + 1` always suffices since
the interval shrinks every iteration. -/
def binarySearchGo (t : List ℚ) (n : ℚ) : Nat → Nat → Nat → SearchResult
  | 0, left, _ => .notFound left
  | fuel + 1, left, right =>
    if left < right then
      let mid := left + (right - left) / 2
      let v := t.getD mid 0
      if v < n then binarySearchGo t n fuel (mid + 1) right
      else if n < v then binarySearchGo t n fuel left mid
      else .found mid
    else .notFound left

/-- Rust's `table.binary_search_by(|v| v.partial_cmp(&n).unwrap())`. -/
def binary_search (t : List ℚ) (n : ℚ) : SearchResult :=
  binarySearchGo t n (t.length + 1) 0 t.length

/-- The in-memory 1D LUT (`lut.rs::Lut1D`), `f32` modelled by `ℚ`. -/
structure Lut1D where
  ranges : List (ℚ × ℚ)
  tables : List (List ℚ)

/-- Embedding of `Lut1D::look_up_inv`.  Panics (failed asserts, and the
out-of-bounds indexing that follows the wrapping `i - 1` underflow in release
builds) are modelled as `none`. -/
def look_up_inv (lut : Lut1D) (n : ℚ) (channel : Nat) : Option ℚ :=
  if channel < lut.tables.length
      ∧ (lut.ranges.length = 1 ∨ lut.ranges.length = lut.tables.length) then
    let table := lut.tables.getD channel []
    let range := if lut.ranges.length = 1 then lut.ranges.getD 0 (0, 0)
                 else lut.ranges.getD channel (0, 0)
    let p : Nat × Nat :=
      match binary_search table n with
      | .found i => ((i + (usizeSize - 1)) % usizeSize, i)
      | .notFound i => if i = 0 then (i, i + 1) else (i - 1, i)
    match table[p.1]?, table[p.2]? with
    | some v1, some v2 =>
      let out1 := (p.1 : ℚ) / ((table.length - 1 : ℕ) : ℚ)
      let out2 := (p.2 : ℚ) / ((table.length - 1 : ℕ) : ℚ)
      if v1 = v2 then some ((out1 + out2) * (1 / 2))
      else
        let alpha := (n - v1) / (v2 - v1)
        let tval := out1 + (out2 - out1) * alpha
        some (tval * (range.2 - range.1) + range.1)
    | _, _ => none
  else none

theorem binarySearchGo_head (t : List ℚ) (hmono : List.Pairwise (· < ·) t) :
    ∀ (fuel right : Nat), 1 ≤ right → right ≤ t.length → right ≤ fuel →
      binarySearchGo t (t.getD 0 0) fuel 0 right = .found 0 := by
  intro fuel
  induction fuel with
  | zero => intro right h1 h2 h3; omega
  | succ f ih =>
    intro right h1 h2 h3
    simp only [binarySearchGo, Nat.zero_add, Nat.sub_zero]
    rw [if_pos (by omega : 0 < right)]
    rcases Nat.lt_or_ge right 2 with hr1 | hr2
    · have hright : right = 1 := by omega
      subst hright
      norm_num
    · have hmidpos : 0 < right / 2 := by omega
      have hmidlt : right / 2 < t.length := by omega
      have hval : t.getD 0 0 < t.getD (right / 2) 0 := by
        rw [List.getD_eq_getElem t 0 (by omega), List.getD_eq_getElem t 0 hmidlt]
        exact (List.pairwise_iff_getElem.mp hmono) 0 (right / 2) (by omega) hmidlt hmidpos
      rw [if_neg (not_lt.mpr (le_of_lt hval)), if_pos hval]
      exact ih (right / 2) hmidpos (by omega) (by omega)

/-- Claim C10: `look_up_inv` is not total at the lower table boundary: for a
LUT whose selected table is strictly increasing, querying exactly the first
table sample makes the binary search return an exact match at index 0, after
which the bracketing index `i - 1` wraps around `usize` and the subsequent
table access is out of bounds, so the function panics (modelled as `none`). -/
theorem claim_C10_look_up_inv_lower_boundary_panic (lut : Lut1D) (channel : Nat)
    (hch : channel < lut.tables.length)
    (hr : lut.ranges.length = 1 ∨ lut.ranges.length = lut.tables.length)
    (hmono : List.Pairwise (· < ·) (lut.tables.getD channel []))
    (hne : lut.tables.getD channel [] ≠ [])
    (hlen : (lut.tables.getD channel []).length < usizeSize) :
    binary_search (lut.tables.getD channel [])
        ((lut.tables.getD channel []).getD 0 0) = .found 0
      ∧ look_up_inv lut ((lut.tables.getD channel []).getD 0 0) channel = none := by
  have hlenpos : 0 < (lut.tables.getD channel []).length := List.length_pos.mpr hne
  have hbs : binary_search (lut.tables.getD channel [])
      ((lut.tables.getD channel []).getD 0 0) = .found 0 := by
    unfold binary_search
    exact binarySearchGo_head _ hmono _ _ hlenpos le_rfl (by omega)
  refine ⟨hbs, ?_⟩
  have husize : 0 < usizeSize := by norm_num [usizeSize]
  have hidx : (0 + (usizeSize - 1)) % usizeSize = usizeSize - 1 := by
    rw [Nat.zero_add]
    exact Nat.mod_eq_of_lt (by omega)
  have hnone : (lut.tables.getD channel [])[(usizeSize - 1)]? = none := by
    rw [List.getElem?_eq_none]
    omega
  simp only [look_up_inv, hbs]
  rw [if_pos (⟨hch, hr⟩ : channel < lut.tables.length ∧
    (lut.ranges.length = 1 ∨ lut.ranges.length = lut.tables.length))]
  simp only [hidx, hnone]

/-- Witness for claim C10: the single-channel LUT with table `[0, 1/2, 1]`
panics when `look_up_inv` is queried at the first sample value `0`. -/
theorem claim_C10_look_up_inv_lower_boundary_panic_witness :
    binary_search [(0 : ℚ), 1/2, 1] 0 = .found 0
      ∧ look_up_inv ⟨[(0, 1)], [[0, 1/2, 1]]⟩ 0 0 = none := by
  have h := claim_C10_look_up_inv_lower_boundary_panic ⟨[(0, 1)], [[0, 1/2, 1]]⟩ 0
    (by norm_num) (Or.inl rfl)
    (by norm_num [List.getD_cons_zero, List.pairwise_cons])
    (by simp [List.getD_cons_zero])
    (by norm_num [List.getD_cons_zero, usizeSize])
  simpa [List.getD_cons_zero] using h

/-- Minimal model of the IEEE-754 special values that the `intersect` slab
test depends on: rationals extended with the two infinities and NaN.  Finite
values carry no signed zero; the single zero behaves as IEEE `+0.0`, which is
the zero every operation below produces from finite inputs (in particular
`to - from` of equal finite values is `+0.0`). -/
inductive FP where
  | nan : FP
  | pinf : FP
  | ninf : FP
  | fin : ℚ → FP
deriving DecidableEq, Repr

/-- IEEE subtraction on the modelled values. -/
def FP.sub : FP → FP → FP
  | nan, _ => nan
  | _, nan => nan
  | pinf, pinf => nan
  | pinf, _ => pinf
  | ninf, ninf => nan
  | ninf, _ => ninf
  | fin _, pinf => ninf
  | fin _, ninf => pinf
  | fin a, fin b => fin (a - b)

/-- IEEE addition on the modelled values. -/
def FP.add : FP → FP → FP
  | nan, _ => nan
  | _, nan => nan
  | pinf, ninf => nan
  | ninf, pinf => nan
  | pinf, _ => pinf
  | _, pinf => pinf
  | ninf, _ => ninf
  | _, ninf => ninf
  | fin a, fin b => fin (a + b)

/-- IEEE multiplication: `0 * inf = NaN`, signs propagate otherwise. -/
def FP.mul : FP → FP → FP
  | nan, _ => nan
  | _, nan => nan
  | pinf, pinf => pinf
  | pinf, ninf => ninf
  | ninf, pinf => ninf
  | ninf, ninf => pinf
  | pinf, fin b => if b = 0 then nan else if 0 < b then pinf else ninf
  | fin a, pinf => if a = 0 then nan else if 0 < a then pinf else ninf
  | ninf, fin b => if b = 0 then nan else if 0 < b then ninf else pinf
  | fin a, ninf => if a = 0 then nan else if 0 < a then ninf else pinf
  | fin a, fin b => fin (a * b)

/-- IEEE reciprocal `1.0 / x`; in particular `1.0 / +0.0 = +inf`. -/
def FP.recip : FP → FP
  | nan => nan
  | pinf => fin 0
  | ninf => fin 0
  | fin a => if a = 0 then pinf else fin (1 / a)

/-- Rust's `f64::max`: a NaN operand is ignored and the other returned. -/
def FP.fmax : FP → FP → FP
  | nan, y => y
  | x, nan => x
  | pinf, _ => pinf
  | _, pinf => pinf
  | ninf, y => y
  | x, ninf => x
  | fin a, fin b => fin (max a b)

/-- Rust's `f64::min`: a NaN operand is ignored and the other returned. -/
def FP.fmin : FP → FP → FP
  | nan, y => y
  | x, nan => x
  | ninf, _ => ninf
  | _, ninf => ninf
  | pinf, y => y
  | x, pinf => x
  | fin a, fin b => fin (min a b)

/-- IEEE `<=` comparison: false whenever an operand is NaN. -/
def FP.fle : FP → FP → Bool
  | nan, _ => false
  | _, nan => false
  | ninf, _ => true
  | _, ninf => false
  | _, pinf => true
  | pinf, _ => false
  | fin a, fin b => decide (a ≤ b)

/-- The `BBOX_MAXT_ADJUST` constant `1.000_000_24` as an exact decimal. -/
def BBOX_MAXT_ADJUST : ℚ := 1.00000024

/-- Embedding of the inner `bbox_intersect` of
`transforms.rs::rgb_gamut::intersect`; `frm`/`toc` stand for the source's
`from`/`to`, which are Lean keywords. -/
def bbox_intersect (frm dir_inv box_min box_max : Vec3 FP) : Option FP :=
  let t1 : Vec3 FP :=
    ⟨(box_min.c0.sub frm.c0).mul dir_inv.c0,
     (box_min.c1.sub frm.c1).mul dir_inv.c1,
     (box_min.c2.sub frm.c2).mul dir_inv.c2⟩
  let t2 : Vec3 FP :=
    ⟨(box_max.c0.sub frm.c0).mul dir_inv.c0,
     (box_max.c1.sub frm.c1).mul dir_inv.c1,
     (box_max.c2.sub frm.c2).mul dir_inv.c2⟩
  let far_t : Vec3 FP := ⟨t1.c0.fmax t2.c0, t1.c1.fmax t2.c1, t1.c2.fmax t2.c2⟩
  let near_t : Vec3 FP := ⟨t1.c0.fmin t2.c0, t1.c1.fmin t2.c1, t1.c2.fmin t2.c2⟩
  let far_hit_t :=
    (((far_t.c0.fmin far_t.c1).fmin far_t.c2).fmin (FP.fin 1)).mul
      (FP.fin BBOX_MAXT_ADJUST)
  let near_hit_t := (near_t.c0.fmax near_t.c1).fmax near_t.c2
  if near_hit_t.fle far_hit_t then
    some ((near_hit_t.fmax (FP.fin 0)).fmin (FP.fin 1))
  else
    none

/-- The hit-point evaluation of `intersect`: `from + dir * t`, clamped to be
nonnegative per channel. -/
def intersectHitPoint (frm dir : Vec3 FP) (t : FP) : Vec3 FP :=
  ⟨(frm.c0.add (dir.c0.mul t)).fmax (.fin 0),
   (frm.c1.add (dir.c1.mul t)).fmax (.fin 0),
   (frm.c2.add (dir.c2.mul t)).fmax (.fin 0)⟩

/-- Embedding of `transforms.rs::rgb_gamut::intersect`. -/
def intersect (frm toc : Vec3 FP) (use_ceiling use_floor : Bool) : Vec3 FP :=
  let dir : Vec3 FP := ⟨toc.c0.sub frm.c0, toc.c1.sub frm.c1, toc.c2.sub frm.c2⟩
  let dir_inv : Vec3 FP := ⟨dir.c0.recip, dir.c1.recip, dir.c2.recip⟩
  let positive_hit_t := bbox_intersect frm dir_inv ⟨.fin 0, .fin 0, .fin 0⟩
    (if use_ceiling then ⟨.fin 1, .fin 1, .fin 1⟩ else ⟨.pinf, .pinf, .pinf⟩)
  let negative_hit_t :=
    if use_floor then none
    else bbox_intersect frm dir_inv ⟨.ninf, .ninf, .ninf⟩ ⟨.fin 0, .fin 0, .fin 0⟩
  match positive_hit_t, negative_hit_t with
  | none, none => toc
  | some t, none => intersectHitPoint frm dir t
  | none, some t => intersectHitPoint frm dir t
  | some t1, some t2 => intersectHitPoint frm dir (t1.fmin t2)

/-- Membership of a finite color in the closed `[0,1]` box gamut. -/
def inClosedBox (v : Vec3 ℚ) : Prop :=
  0 ≤ v.c0 ∧ v.c0 ≤ 1 ∧ 0 ≤ v.c1 ∧ v.c1 ≤ 1 ∧ 0 ≤ v.c2 ∧ v.c2 ≤ 1

/-- Claim C2 fails on the code: `from = [0, 1/2, 1/2]` satisfies the box
constraints with both flags set, yet on the degenerate axis
`from[0] == to[0] == 0` the slab arithmetic computes `(0 - 0) * inf = NaN`,
Rust's NaN-ignoring `min`/`max` turn the near hit into `+inf`, the box test
misses, and `intersect` returns `to`, not `from`. -/
theorem claim_C2_intersect_boundary_nan :
    inClosedBox ⟨0, 1/2, 1/2⟩
      ∧ intersect ⟨.fin 0, .fin (1/2), .fin (1/2)⟩
          ⟨.fin 0, .fin (3/5), .fin (3/5)⟩ true true
          = ⟨.fin 0, .fin (3/5), .fin (3/5)⟩
      ∧ intersect ⟨.fin 0, .fin (1/2), .fin (1/2)⟩
          ⟨.fin 0, .fin (3/5), .fin (3/5)⟩ true true
          ≠ ⟨.fin 0, .fin (1/2), .fin (1/2)⟩ := by
  refine ⟨by norm_num [inClosedBox], ?_, ?_⟩ <;>
    norm_num [intersect, bbox_intersect, intersectHitPoint, FP.sub, FP.add, FP.mul,
      FP.recip, FP.fmax, FP.fmin, FP.fle, BBOX_MAXT_ADJUST]

/-- Embedding of `transforms.rs::rgb_gamut::soft_clamp` over the reals (the
square root forces `ℝ`; `prot` is the source's `protected`, a Lean keyword).
The shadowed remapped `x` of the source is named `xr`. -/
noncomputable def soft_clamp (x prot : ℝ) : ℝ :=
  if 1 ≤ prot ∨ x ≤ prot then min x 1
  else
    let xr := (x - prot) / (1 - prot)
    let tmp := xr / Real.sqrt (xr * xr + 1)
    tmp * (1 - prot) + prot

/-- Embedding of `transforms.rs::rgb_gamut::open_domain_clip` over the
reals. -/
noncomputable def open_domain_clip (rgb : Vec3 ℝ) (gray_level prot : ℝ) :
    Vec3 ℝ :=
  if gray_level ≤ 0 then ⟨0, 0, 0⟩
  else
    let min_component := min (min rgb.c0 rgb.c1) rgb.c2
    let saturation := (gray_level - min_component) / gray_level
    if saturation ≤ 0 then rgb
    else
      let target_saturation := soft_clamp saturation prot
      let t := target_saturation / saturation
      ⟨gray_level * (1 - t) + rgb.c0 * t,
       gray_level * (1 - t) + rgb.c1 * t,
       gray_level * (1 - t) + rgb.c2 * t⟩

theorem soft_clamp_le_one (x prot : ℝ) : soft_clamp x prot ≤ 1 := by
  unfold soft_clamp
  split_ifs with h
  · exact min_le_right x 1
  · push_neg at h
    obtain ⟨hp1, hpx⟩ := h
    have hxrpos : 0 < (x - prot) / (1 - prot) := div_pos (by linarith) (by linarith)
    set xr := (x - prot) / (1 - prot) with hxr
    have hs : xr < Real.sqrt (xr * xr + 1) :=
      (Real.lt_sqrt (le_of_lt hxrpos)).mpr
        (show xr ^ 2 < xr * xr + 1 by nlinarith)
    have htmp : xr / Real.sqrt (xr * xr + 1) < 1 :=
      (div_lt_one (lt_trans hxrpos hs)).mpr hs
    have hprod : xr / Real.sqrt (xr * xr + 1) * (1 - prot) < 1 * (1 - prot) :=
      mul_lt_mul_of_pos_right htmp (by linarith)
    simp only []
    linarith

theorem soft_clamp_nonneg (x prot : ℝ) (hx : 0 ≤ x) (hp : 0 ≤ prot) :
    0 ≤ soft_clamp x prot := by
  unfold soft_clamp
  split_ifs with h
  · exact le_min hx zero_le_one
  · push_neg at h
    obtain ⟨hp1, hpx⟩ := h
    have hxrpos : 0 < (x - prot) / (1 - prot) := div_pos (by linarith) (by linarith)
    set xr := (x - prot) / (1 - prot) with hxr
    have htmp : 0 ≤ xr / Real.sqrt (xr * xr + 1) :=
      div_nonneg (le_of_lt hxrpos) (Real.sqrt_nonneg _)
    have hprod : 0 ≤ xr / Real.sqrt (xr * xr + 1) * (1 - prot) :=
      mul_nonneg htmp (by linarith)
    simp only []
    linarith

theorem open_clip_channel_nonneg (g mc ci sat sc : ℝ) (hg : 0 < g)
    (hci : mc ≤ ci) (hsat : 0 < sat) (hsatg : sat * g = g - mc)
    (hsc0 : 0 ≤ sc) (hsc1 : sc ≤ 1) :
    0 ≤ g * (1 - sc / sat) + ci * (sc / sat) := by
  have ht0 : 0 ≤ sc / sat := div_nonneg hsc0 hsat.le
  have htsat : sc / sat * sat = sc := div_mul_cancel₀ _ (ne_of_gt hsat)
  have hA : sc / sat * mc ≤ sc / sat * ci := mul_le_mul_of_nonneg_left hci ht0
  have hB : sc / sat * (sat * g) = sc * g := by
    rw [← mul_assoc, htsat]
  rw [hsatg] at hB
  have hC : sc * g ≤ 1 * g := mul_le_mul_of_nonneg_right hsc1 hg.le
  nlinarith [hA, hB, hC]

/-- Claim C9: for every color, every `gray_level > 0` and every
`protected ∈ [0,1]`, all three channels of `open_domain_clip` are nonnegative
in exact real arithmetic: the blend factor satisfies `t * saturation =
soft_clamp saturation protected ≤ 1`, so each channel is at least
`gray_level * (1 - soft_clamp saturation protected) ≥ 0`. -/
theorem claim_C9_open_domain_clip_nonneg (rgb : Vec3 ℝ) (g prot : ℝ)
    (hg : 0 < g) (hp0 : 0 ≤ prot) (_hp1 : prot ≤ 1) :
    0 ≤ (open_domain_clip rgb g prot).c0
      ∧ 0 ≤ (open_domain_clip rgb g prot).c1
      ∧ 0 ≤ (open_domain_clip rgb g prot).c2 := by
  by_cases hsat : (g - min (min rgb.c0 rgb.c1) rgb.c2) / g ≤ 0
  · have heq : open_domain_clip rgb g prot = rgb := by
      simp only [open_domain_clip]
      rw [if_neg (not_le.mpr hg), if_pos hsat]
    rw [heq]
    have hgmc : g ≤ min (min rgb.c0 rgb.c1) rgb.c2 := by
      by_contra hcon
      push_neg at hcon
      have : 0 < (g - min (min rgb.c0 rgb.c1) rgb.c2) / g :=
        div_pos (by linarith) hg
      linarith
    have h0 : min (min rgb.c0 rgb.c1) rgb.c2 ≤ rgb.c0 :=
      le_trans (min_le_left _ _) (min_le_left _ _)
    have h1 : min (min rgb.c0 rgb.c1) rgb.c2 ≤ rgb.c1 :=
      le_trans (min_le_left _ _) (min_le_right _ _)
    have h2 : min (min rgb.c0 rgb.c1) rgb.c2 ≤ rgb.c2 := min_le_right _ _
    exact ⟨by linarith, by linarith, by linarith⟩
  · push_neg at hsat
    have heq : open_domain_clip rgb g prot =
        ⟨g * (1 - soft_clamp ((g - min (min rgb.c0 rgb.c1) rgb.c2) / g) prot /
              ((g - min (min rgb.c0 rgb.c1) rgb.c2) / g)) +
            rgb.c0 * (soft_clamp ((g - min (min rgb.c0 rgb.c1) rgb.c2) / g) prot /
              ((g - min (min rgb.c0 rgb.c1) rgb.c2) / g)),
         g * (1 - soft_clamp ((g - min (min rgb.c0 rgb.c1) rgb.c2) / g) prot /
              ((g - min (min rgb.c0 rgb.c1) rgb.c2) / g)) +
            rgb.c1 * (soft_clamp ((g - min (min rgb.c0 rgb.c1) rgb.c2) / g) prot /
              ((g - min (min rgb.c0 rgb.c1) rgb.c2) / g)),
         g * (1 - soft_clamp ((g - min (min rgb.c0 rgb.c1) rgb.c2) / g) prot /
              ((g - min (min rgb.c0 rgb.c1) rgb.c2) / g)) +
            rgb.c2 * (soft_clamp ((g - min (min rgb.c0 rgb.c1) rgb.c2) / g) prot /
              ((g - min (min rgb.c0 rgb.c1) rgb.c2) / g))⟩ := by
      simp only [open_domain_clip]
      rw [if_neg (not_le.mpr hg), if_neg (not_le.mpr hsat)]
    rw [heq]
    have hsatg : (g - min (min rgb.c0 rgb.c1) rgb.c2) / g * g
        = g - min (min rgb.c0 rgb.c1) rgb.c2 := div_mul_cancel₀ _ (ne_of_gt hg)
    have hsc0 : 0 ≤ soft_clamp ((g - min (min rgb.c0 rgb.c1) rgb.c2) / g) prot :=
      soft_clamp_nonneg _ _ (le_of_lt hsat) hp0
    have hsc1 := soft_clamp_le_one ((g - min (min rgb.c0 rgb.c1) rgb.c2) / g) prot
    exact ⟨open_clip_channel_nonneg g _ rgb.c0 _ _ hg
        (le_trans (min_le_left _ _) (min_le_left _ _)) hsat hsatg hsc0 hsc1,
      open_clip_channel_nonneg g _ rgb.c1 _ _ hg
        (le_trans (min_le_left _ _) (min_le_right _ _)) hsat hsatg hsc0 hsc1,
      open_clip_channel_nonneg g _ rgb.c2 _ _ hg
        (min_le_right _ _) hsat hsatg hsc0 hsc1⟩

/-- Witness for claim C9 at the concrete color `(-1, 1/2, 2)` with gray level
`1` and protection `1/2`. -/
theorem claim_C9_open_domain_clip_nonneg_witness :
    0 ≤ (open_domain_clip ⟨-1, 1/2, 2⟩ 1 (1/2)).c0
      ∧ 0 ≤ (open_domain_clip ⟨-1, 1/2, 2⟩ 1 (1/2)).c1
      ∧ 0 ≤ (open_domain_clip ⟨-1, 1/2, 2⟩ 1 (1/2)).c2 :=
  claim_C9_open_domain_clip_nonneg ⟨-1, 1/2, 2⟩ 1 (1/2) (by norm_num)
    (by norm_num) (by norm_num)

/-- The `M1_INV` constant of `transforms.rs::oklab::to_xyz_d65`. -/
def M1_INV : Mat3 :=
  ⟨1.2270138511035211, -0.5577999806518222, 0.2812561489664678,
   -0.040580178423280586, 1.11225686961683, -0.0716766786656012,
   -0.0763812845057069, -0.4214819784180127, 1.5861632204407947⟩

/-- The `M2_INV` constant of `transforms.rs::oklab::to_xyz_d65`. -/
def M2_INV : Mat3 :=
  ⟨0.9999999984505197, 0.3963377921737678, 0.21580375806075883,
   1.0000000088817607, -0.10556134232365633, -0.063854174771706,
   1.000000054672411, -0.08948418209496575, -1.2914855378640917⟩

/-- Embedding of `transforms.rs::oklab::to_xyz_d65` (OkLab → CIE XYZ): the
`M2_INV` basis change, the componentwise sign-preserving cube, then
`M1_INV`. -/
def to_xyz_d65 (oklab : Vec3 ℚ) : Vec3 ℚ :=
  let lms_nonlinear := transform_color oklab M2_INV
  let lms_linear : Vec3 ℚ :=
    ⟨lms_nonlinear.c0 * lms_nonlinear.c0 * lms_nonlinear.c0,
     lms_nonlinear.c1 * lms_nonlinear.c1 * lms_nonlinear.c1,
     lms_nonlinear.c2 * lms_nonlinear.c2 * lms_nonlinear.c2⟩
  transform_color lms_linear M1_INV

/-- Modelled from the spec: the bisection iteration cap of the gamut-clipping
searches `rgb_clip`/`oklab_clip`, whose source file is not among the provided
sources; the spec fixes it as a deliberate, named constant of 32. -/
def BISECTION_ITERATIONS : Nat := 32

/-- Modelled from the spec: one bisection step of the clipping search on a
pair `(from, target)`: evaluate the midpoint, move `target` to it when it is
in gamut, and move `from` to it otherwise. -/
def clipStep {α : Type} (inGamut : α → Bool) (mid : α → α → α) (p : α × α) :
    α × α :=
  let m := mid p.1 p.2
  if inGamut m then (p.1, m) else (m, p.2)

/-- Modelled from the spec: the fixed-fuel bisection loop of the clipping
searches; when the fuel runs out the current `target` is the answer. -/
def bisectClip {α : Type} (inGamut : α → Bool) (mid : α → α → α) :
    Nat → α × α → α
  | 0, p => p.2
  | fuel + 1, p => bisectClip inGamut mid fuel (clipStep inGamut mid p)

/-- Componentwise midpoint of two colors. -/
def midColor (a b : Vec3 ℚ) : Vec3 ℚ :=
  ⟨(a.c0 + b.c0) / 2, (a.c1 + b.c1) / 2, (a.c2 + b.c2) / 2⟩

/-- Membership in the box gamut with floor 0 and optional ceiling 1. -/
def inGamutBox (use_ceiling : Bool) (v : Vec3 ℚ) : Bool :=
  decide (0 ≤ v.c0) && decide (0 ≤ v.c1) && decide (0 ≤ v.c2) &&
    (!use_ceiling || (decide (v.c0 ≤ 1) && decide (v.c1 ≤ 1) && decide (v.c2 ≤ 1)))

/-- Modelled from the spec: `rgb_clip` — RGB-space bisection between an
out-of-gamut `from` and an in-gamut-or-boundary `target`, hard-capped at
`BISECTION_ITERATIONS` iterations. -/
def rgb_clip (use_ceiling : Bool) (frm target : Vec3 ℚ) : Vec3 ℚ :=
  bisectClip (inGamutBox use_ceiling) midColor BISECTION_ITERATIONS (frm, target)

/-- Modelled from the spec: `oklab_clip` — the same hard-capped bisection run
on OkLab coordinates (where moving toward a zero-chroma target desaturates at
constant hue), judging gamut membership after converting back through
`to_xyz_d65` (from the source) and a caller-supplied XYZ → RGB matrix. -/
def oklab_clip (xyz_to_rgb : Mat3) (use_ceiling : Bool) (frm target : Vec3 ℚ) :
    Vec3 ℚ :=
  bisectClip
    (fun lab => inGamutBox use_ceiling (transform_color (to_xyz_d65 lab) xyz_to_rgb))
    midColor BISECTION_ITERATIONS (frm, target)

theorem bisectClip_eq_iterate {α : Type} (inGamut : α → Bool) (mid : α → α → α) :
    ∀ (n : Nat) (p : α × α),
      bisectClip inGamut mid n p = ((clipStep inGamut mid)^[n] p).2 := by
  intro n
  induction n with
  | zero => intro p; rfl
  | succ k ih =>
    intro p
    calc bisectClip inGamut mid (k + 1) p
        = bisectClip inGamut mid k (clipStep inGamut mid p) := rfl
      _ = ((clipStep inGamut mid)^[k] (clipStep inGamut mid p)).2 := ih _
      _ = ((clipStep inGamut mid)^[k + 1] p).2 := by
          rw [Function.iterate_succ_apply]

/-- Claim C3: the gamut-clipping searches `rgb_clip` and `oklab_clip` exist
and are exactly the 32-fold iteration — the hard cap is the named constant
`BISECTION_ITERATIONS = 32` — of the bisection step that probes the midpoint,
moves `target` to it when it is in gamut and `from` to it otherwise, with the
final `target` returned. -/
theorem claim_C3_bisection_is_32_iterations :
    BISECTION_ITERATIONS = 32
      ∧ (∀ (uc : Bool) (frm target : Vec3 ℚ),
          rgb_clip uc frm target =
            ((clipStep (inGamutBox uc) midColor)^[BISECTION_ITERATIONS]
              (frm, target)).2)
      ∧ (∀ (m : Mat3) (uc : Bool) (frm target : Vec3 ℚ),
          oklab_clip m uc frm target =
            ((clipStep
                (fun lab => inGamutBox uc (transform_color (to_xyz_d65 lab) m))
                midColor)^[BISECTION_ITERATIONS] (frm, target)).2)
      ∧ (∀ (α : Type) (g : α → Bool) (mid : α → α → α) (p : α × α),
          clipStep g mid p =
            if g (mid p.1 p.2) then (p.1, mid p.1 p.2) else (mid p.1 p.2, p.2)) := by
  refine ⟨rfl, ?_, ?_, ?_⟩
  · intro uc frm target
    exact bisectClip_eq_iterate _ _ _ _
  · intro m uc frm target
    exact bisectClip_eq_iterate _ _ _ _
  · intro α g mid p
    rfl
